import Mathlib

/-!
Shallow embedding of the song-queue server's in-memory queue store
(`src/index.js`): the mutable module state (`currentSong`, `queue`,
`nextQueueItemId`), the snapshot builder `getQueueSnapshot`, the SSE
broadcast `broadcastQueue`, and the six admin command handlers
(add, next/advance, set current, clear current, delete, reorder).

Conventions of the embedding:
* The JS module-level mutable variables become the fields of `ServerState`.
* Request-body string fields that may be absent are `Option String`;
  JS falsiness of a string (`!title`) is `isBlank`: missing or empty.
* A handler that returns an HTTP error becomes `Except ApiError _`;
  a handler that returns early on error leaves the state untouched,
  which `applyOp` makes explicit.
* `queue.sort((a, b) => a.position - b.position)` is a stable ascending
  sort by `position` (JS `Array.prototype.sort` is stable), embedded as
  `List.mergeSort` with the `position ≤ position` comparator.
* A reorder request body is `Option (List ReorderEntry)`: `none` models
  `items` not being an array.  An entry's `id` field is `Option Int`:
  `none` models `Number(it.id)` being `NaN` (missing / non-numeric id),
  which can never equal a real item id.
-/

/-- A queue entry: `{ id, songId, title, artist, position }` in the source. -/
structure QueueItem where
  id : Nat
  songId : Option Nat
  title : String
  artist : String
  position : Int
  deriving Repr, DecidableEq

/-- The current song: `{ songId, title, artist }` in the source (no id/position). -/
structure CurrentSong where
  songId : Option Nat
  title : String
  artist : String
  deriving Repr, DecidableEq

/-- The module-level mutable state of `src/index.js`:
`currentSong` (null = `none`), `queue`, and the counter `nextQueueItemId`. -/
structure ServerState where
  currentSong : Option CurrentSong
  queue : List QueueItem
  nextQueueItemId : Nat
  deriving Repr, DecidableEq

/-- Process start: `currentSong = null`, `queue = []`, `nextQueueItemId = 1`. -/
def initialState : ServerState :=
  { currentSong := none, queue := [], nextQueueItemId := 1 }

/-- The error responses the queue handlers produce, by the spec's taxonomy. -/
inductive ApiError where
  | validationError (msg : String)
  | notFoundError (msg : String)
  | emptyQueueError (msg : String)
  deriving Repr, DecidableEq

/-- JS falsiness of an optional string field: absent or empty (`!title`). -/
def isBlank : Option String → Bool
  | none => true
  | some s => s.isEmpty

/-- `queue.map((item, index) => ({ ...item, position: index + 1 }))`,
generalized to start numbering at `n`. -/
def renumberFrom (n : Nat) : List QueueItem → List QueueItem
  | [] => []
  | item :: rest => { item with position := (n : Int) } :: renumberFrom (n + 1) rest

/-- Position renumbering to `1..N` in array order, as done by the
advance and delete handlers. -/
def renumber (q : List QueueItem) : List QueueItem :=
  renumberFrom 1 q

/-- `POST /api/queue/add` (`src/index.js` lines 148-171): validate
`title`/`artist`, assign the next id, append at
`queue.length > 0 ? queue[queue.length - 1].position + 1 : 1`. -/
def addItem (songId : Option Nat) (title artist : Option String)
    (s : ServerState) : Except ApiError (QueueItem × ServerState) :=
  if isBlank title || isBlank artist then
    .error (.validationError "title and artist are required")
  else
    let position : Int :=
      match s.queue.getLast? with
      | some last => last.position + 1
      | none => 1
    let item : QueueItem :=
      { id := s.nextQueueItemId
        songId := songId
        title := title.getD ""
        artist := artist.getD ""
        position := position }
    .ok (item,
      { s with
          queue := s.queue ++ [item]
          nextQueueItemId := s.nextQueueItemId + 1 })

/-- `POST /api/queue/next` (`src/index.js` lines 175-195): shift the queue
head into `currentSong` (dropping id/position), renumber the rest. -/
def advance (s : ServerState) : Except ApiError (CurrentSong × ServerState) :=
  match s.queue with
  | [] => .error (.emptyQueueError "Queue is empty")
  | nextItem :: rest =>
    let cur : CurrentSong :=
      { songId := nextItem.songId, title := nextItem.title, artist := nextItem.artist }
    .ok (cur, { s with currentSong := some cur, queue := renumber rest })

/-- `POST /api/queue/current` (`src/index.js` lines 200-217): validate
`title`/`artist`, overwrite `currentSong` directly. -/
def setCurrent (songId : Option Nat) (title artist : Option String)
    (s : ServerState) : Except ApiError (CurrentSong × ServerState) :=
  if isBlank title || isBlank artist then
    .error (.validationError "title and artist are required")
  else
    let cur : CurrentSong :=
      { songId := songId, title := title.getD "", artist := artist.getD "" }
    .ok (cur, { s with currentSong := some cur })

/-- `POST /api/queue/current/clear` (`src/index.js` lines 221-225):
`currentSong = null`, unconditionally. -/
def clearCurrent (s : ServerState) : ServerState :=
  { s with currentSong := none }

/-- `DELETE /api/queue/:id` (`src/index.js` lines 229-247): `findIndex` by id,
404 if absent, else `splice(index, 1)` and renumber. -/
def removeItem (id : Nat) (s : ServerState) : Except ApiError ServerState :=
  match s.queue.findIdx? (fun item => item.id == id) with
  | none => .error (.notFoundError "Queue item not found")
  | some index => .ok { s with queue := renumber (s.queue.eraseIdx index) }

/-- One element of the reorder request's `items` array.  `id = none` models
`Number(it.id)` being `NaN` (a missing or non-numeric id), which never
matches any queue item's id. -/
structure ReorderEntry where
  id : Option Int
  position : Int
  deriving Repr, DecidableEq

/-- The lookup `posMap.get(item.id)` where `posMap` was built by
`posMap.set(Number(it.id), Number(it.position))` over `items` in order:
the LAST entry with a matching id wins (later `set` overwrites). -/
def posLookup (entries : List ReorderEntry) (id : Nat) : Option Int :=
  (entries.reverse.find? (fun e => e.id == some (id : Int))).map (·.position)

/-- `queue.map((item) => ({ ...item, position: posMap.get(item.id) ?? item.position }))`. -/
def applyPositions (entries : List ReorderEntry) (q : List QueueItem) : List QueueItem :=
  q.map (fun item => { item with position := (posLookup entries item.id).getD item.position })

/-- The comparator `(a, b) => a.position - b.position` as a boolean `le`. -/
def posLE (a b : QueueItem) : Bool :=
  a.position ≤ b.position

/-- `POST /api/queue/reorder` (`src/index.js` lines 252-272): 400 unless
`items` is an array; apply the position map, then stable-sort ascending
by position. -/
def reorder (items : Option (List ReorderEntry)) (s : ServerState) :
    Except ApiError ServerState :=
  match items with
  | none => .error (.validationError "items must be an array")
  | some entries =>
    .ok { s with queue := (applyPositions entries s.queue).mergeSort posLE }

/-- The snapshot `{ current, next, queue }` built by `getQueueSnapshot`. -/
structure QueueSnapshot where
  current : Option CurrentSong
  next : Option QueueItem
  queue : List QueueItem
  deriving Repr, DecidableEq

/-- `getQueueSnapshot` (`src/index.js` lines 89-96):
`next = queue.length > 0 ? queue[0] : null`. -/
def getQueueSnapshot (s : ServerState) : QueueSnapshot :=
  { current := s.currentSong
    next := match s.queue with
      | [] => none
      | x :: _ => some x
    queue := s.queue }

/-- `GET /api/queue` (`src/index.js` lines 116-118): a pure read returning
the snapshot; the state component records that nothing was mutated. -/
def handleGetQueue (s : ServerState) : QueueSnapshot × ServerState :=
  (getQueueSnapshot s, s)

/-- One SSE subscriber (`res` in `sseClients`): its identity, whether
`res.write` currently succeeds (`alive`), and the payloads delivered so far. -/
structure SseClient where
  cid : Nat
  alive : Bool
  received : List QueueSnapshot
  deriving Repr, DecidableEq

/-- `res.write(payload)`: delivers the snapshot if the connection is alive,
fails (throws) otherwise. -/
def sseWrite (c : SseClient) (snap : QueueSnapshot) : Option SseClient :=
  if c.alive then some { c with received := c.received ++ [snap] } else none

/-- The outcome of a broadcast: the subscriber set afterwards, and the cids
whose write failed and was logged by the `catch` block. -/
structure BroadcastResult where
  clients : List SseClient
  loggedErrors : List Nat
  deriving Repr, DecidableEq

/-- `broadcastQueue` (`src/index.js` lines 98-108): one snapshot payload is
computed, then written to every subscriber in turn; a failing write is
caught and logged (`console.error`) and the loop continues; the
subscriber set itself is not modified by the broadcast. -/
def broadcastQueue (clients : List SseClient) (s : ServerState) : BroadcastResult :=
  let payload := getQueueSnapshot s
  { clients := clients.map (fun c =>
      match sseWrite c payload with
      | some c2 => c2
      | none => c)
    loggedErrors := (clients.filter (fun c => !c.alive)).map (·.cid) }

/-- `req.on("close", ...)` (`src/index.js` lines 137-139): the connection's
close event removes the subscriber from `sseClients`. -/
def handleClose (clients : List SseClient) (cid : Nat) : List SseClient :=
  clients.filter (fun c => c.cid != cid)

/-- An admin command, as dispatched to the handlers. -/
inductive Op where
  | add (songId : Option Nat) (title artist : Option String)
  | next
  | setCur (songId : Option Nat) (title artist : Option String)
  | clearCur
  | remove (id : Nat)
  | reorderOp (items : Option (List ReorderEntry))
  deriving Repr, DecidableEq

/-- Running one command against the state: a handler that returns an error
response has returned before any mutation, so the state is unchanged. -/
def applyOp (s : ServerState) : Op → ServerState
  | .add songId title artist =>
    match addItem songId title artist s with
    | .ok (_, s2) => s2
    | .error _ => s
  | .next =>
    match advance s with
    | .ok (_, s2) => s2
    | .error _ => s
  | .setCur songId title artist =>
    match setCurrent songId title artist s with
    | .ok (_, s2) => s2
    | .error _ => s
  | .clearCur => clearCurrent s
  | .remove id =>
    match removeItem id s with
    | .ok s2 => s2
    | .error _ => s
  | .reorderOp items =>
    match reorder items s with
    | .ok s2 => s2
    | .error _ => s

/-- A whole command sequence, run from a starting state. -/
def runOps (s : ServerState) (ops : List Op) : ServerState :=
  ops.foldl applyOp s

/-- Is the command an `Add`, `Remove` or `Advance` (the structural queue
operations of claim C1)? -/
def Op.structural : Op → Bool
  | .add _ _ _ => true
  | .next => true
  | .remove _ => true
  | _ => false

/-- The canonical position sequence `[k, k+1, ..., k+n-1]` as integers. -/
def posListFrom (k : Nat) : Nat → List Int
  | 0 => []
  | n + 1 => (k : Int) :: posListFrom (k + 1) n

/-- The canonical position sequence `1..n`. -/
def posList (n : Nat) : List Int :=
  posListFrom 1 n

/-- The queue's positions are exactly `1..N` in array order. -/
@[reducible] def posOK (q : List QueueItem) : Prop :=
  q.map (·.position) = posList q.length

/-- A queue item without its position: used to state that an operation
preserves the identity and order of items while renumbering. -/
def stripPos (item : QueueItem) : Nat × Option Nat × String × String :=
  (item.id, item.songId, item.title, item.artist)

/-- The queue is sorted in non-decreasing order of `position`, as left by
the comparator `(a, b) => a.position - b.position`. -/
def sortedByPos (q : List QueueItem) : Prop :=
  q.Pairwise (fun a b => a.position ≤ b.position)

/-- The state after a command sequence run against a fresh process. -/
def reachState (ops : List Op) : ServerState :=
  runOps initialState ops

/-- The store invariant maintained by every handler: queue ids are
pairwise distinct, all ids are below the counter, and the queue is
sorted by position. -/
def StoreInv (s : ServerState) : Prop :=
  (s.queue.map (·.id)).Nodup ∧
  (∀ x ∈ s.queue, x.id < s.nextQueueItemId) ∧
  sortedByPos s.queue


/-! ### Sample data used by concrete instantiations -/

/-- One add command for "Song A". -/
def opsAddA : List Op :=
  [.add none (some "Song A") (some "Artist A")]

/-- The item the first add of "Song A" creates. -/
def itemA : QueueItem :=
  { id := 1, songId := none, title := "Song A", artist := "Artist A", position := 1 }

/-- The item a following add of "Song B" creates. -/
def itemB : QueueItem :=
  { id := 2, songId := none, title := "Song B", artist := "Artist B", position := 2 }

/-- The state holding both sample items. -/
def stAB : ServerState :=
  { currentSong := none, queue := [itemA, itemB], nextQueueItemId := 3 }

/-- The state holding only the first sample item. -/
def stA : ServerState :=
  { currentSong := none, queue := [itemA], nextQueueItemId := 2 }

/-! ### Lemmas about renumbering -/

theorem renumberFrom_length (n : Nat) (q : List QueueItem) :
    (renumberFrom n q).length = q.length := by
  induction q generalizing n with
  | nil => rfl
  | cons x xs ih => simp [renumberFrom, ih]

theorem renumberFrom_map_stripPos (n : Nat) (q : List QueueItem) :
    (renumberFrom n q).map stripPos = q.map stripPos := by
  induction q generalizing n with
  | nil => rfl
  | cons x xs ih => simp [renumberFrom, stripPos, ih]

theorem renumberFrom_map_id (n : Nat) (q : List QueueItem) :
    (renumberFrom n q).map (·.id) = q.map (·.id) := by
  induction q generalizing n with
  | nil => rfl
  | cons x xs ih => simp [renumberFrom, ih]

theorem renumberFrom_map_position (n : Nat) (q : List QueueItem) :
    (renumberFrom n q).map (·.position) = posListFrom n q.length := by
  induction q generalizing n with
  | nil => rfl
  | cons x xs ih => simp [renumberFrom, posListFrom, ih]

theorem renumber_map_id (q : List QueueItem) :
    (renumber q).map (·.id) = q.map (·.id) :=
  renumberFrom_map_id 1 q

theorem renumber_map_stripPos (q : List QueueItem) :
    (renumber q).map stripPos = q.map stripPos :=
  renumberFrom_map_stripPos 1 q

theorem renumber_length (q : List QueueItem) :
    (renumber q).length = q.length :=
  renumberFrom_length 1 q

/-! ### Lemmas about the canonical position sequences -/

theorem posListFrom_length (k n : Nat) : (posListFrom k n).length = n := by
  induction n generalizing k with
  | zero => rfl
  | succ m ih => simp [posListFrom, ih]

theorem mem_posListFrom_lower (k n : Nat) (p : Int) (h : p ∈ posListFrom k n) :
    (k : Int) ≤ p := by
  induction n generalizing k with
  | zero => simp [posListFrom] at h
  | succ m ih =>
    simp only [posListFrom, List.mem_cons] at h
    rcases h with h | h
    · exact le_of_eq h.symm
    · have := ih (k + 1) h
      push_cast at this
      omega

theorem posListFrom_concat (k n : Nat) :
    posListFrom k (n + 1) = posListFrom k n ++ [((k + n : Nat) : Int)] := by
  induction n generalizing k with
  | zero => simp [posListFrom]
  | succ m ih =>
    rw [posListFrom, ih (k + 1)]
    have h : k + 1 + m = k + (m + 1) := by omega
    rw [h, posListFrom]
    simp

theorem posOK_renumber (q : List QueueItem) : posOK (renumber q) := by
  unfold posOK renumber posList
  rw [renumberFrom_map_position, renumberFrom_length]

theorem posOK_getLast (q : List QueueItem) (z : QueueItem) (hOK : posOK q)
    (hz : q.getLast? = some z) : z.position = (q.length : Int) := by
  have h1 : (q.map (·.position)).getLast? = (posList q.length).getLast? := by
    rw [hOK]
  rw [List.getLast?_map, hz] at h1
  cases q with
  | nil => simp at hz
  | cons a t =>
    rw [posList, List.length_cons, posListFrom_concat] at h1
    simp at h1
    rw [h1, List.length_cons]
    push_cast
    ring

/-! ### Sortedness by position -/

theorem renumberFrom_position_lower (n : Nat) (q : List QueueItem) :
    ∀ x ∈ renumberFrom n q, (n : Int) ≤ x.position := by
  induction q generalizing n with
  | nil => simp [renumberFrom]
  | cons a t ih =>
    intro x hx
    simp only [renumberFrom, List.mem_cons] at hx
    rcases hx with hx | hx
    · rw [hx]
    · have := ih (n + 1) x hx
      push_cast at this
      omega

theorem sortedByPos_renumberFrom (n : Nat) (q : List QueueItem) :
    sortedByPos (renumberFrom n q) := by
  induction q generalizing n with
  | nil => exact List.Pairwise.nil
  | cons a t ih =>
    rw [renumberFrom, sortedByPos, List.pairwise_cons]
    refine ⟨?_, ih (n + 1)⟩
    intro y hy
    have := renumberFrom_position_lower (n + 1) t y hy
    push_cast at this ⊢
    omega

theorem sortedByPos_renumber (q : List QueueItem) : sortedByPos (renumber q) :=
  sortedByPos_renumberFrom 1 q

theorem sortedByPos_le_getLast (q : List QueueItem) :
    ∀ z, q.getLast? = some z → sortedByPos q → ∀ x ∈ q, x.position ≤ z.position := by
  induction q with
  | nil => intro z hz; simp at hz
  | cons a t ih =>
    intro z hz hs x hx
    cases t with
    | nil =>
      simp at hz hx
      rw [hx, hz]
    | cons b t2 =>
      rw [List.getLast?_cons_cons] at hz
      rw [sortedByPos, List.pairwise_cons] at hs
      rcases List.mem_cons.mp hx with hx | hx
      · rw [hx]
        exact hs.1 z (List.mem_of_getLast?_eq_some hz)
      · exact ih z hz hs.2 x hx

theorem sortedByPos_concat (q : List QueueItem) (z : QueueItem)
    (hq : sortedByPos q) (hz : ∀ x ∈ q, x.position ≤ z.position) :
    sortedByPos (q ++ [z]) := by
  rw [sortedByPos, List.pairwise_append]
  refine ⟨hq, by simp, ?_⟩
  intro x hx y hy
  simp at hy
  rw [hy]
  exact hz x hx

theorem posLE_trans (a b c : QueueItem) : posLE a b → posLE b c → posLE a c := by
  simp only [posLE, decide_eq_true_eq]
  omega

theorem posLE_total (a b : QueueItem) : posLE a b || posLE b a := by
  simp only [posLE, Bool.or_eq_true, decide_eq_true_eq]
  omega

theorem sortedByPos_mergeSort (l : List QueueItem) : sortedByPos (l.mergeSort posLE) := by
  have h := List.sorted_mergeSort posLE_trans posLE_total l
  exact h.imp (by intro a b hab; simpa [posLE] using hab)

/-! ### Reachable states and the store invariant -/

theorem StoreInv_initial : StoreInv initialState := by
  refine ⟨?_, ?_, ?_⟩ <;> simp [initialState, sortedByPos]

theorem mem_map_id {q q2 : List QueueItem} (hmap : q2.map (·.id) = q.map (·.id)) :
    ∀ y ∈ q2, ∃ x ∈ q, x.id = y.id := by
  intro y hy
  have hmem : y.id ∈ q2.map (·.id) := List.mem_map_of_mem _ hy
  rw [hmap] at hmem
  obtain ⟨x, hx, he⟩ := List.mem_map.mp hmem
  exact ⟨x, hx, he⟩

theorem applyPositions_map_id (entries : List ReorderEntry) (q : List QueueItem) :
    (applyPositions entries q).map (·.id) = q.map (·.id) := by
  unfold applyPositions
  rw [List.map_map]
  exact List.map_congr_left (fun a _ => rfl)

theorem applyPositions_length (entries : List ReorderEntry) (q : List QueueItem) :
    (applyPositions entries q).length = q.length := by
  unfold applyPositions
  exact List.length_map q _

theorem StoreInv_applyOp (s : ServerState) (op : Op) (h : StoreInv s) : StoreInv (applyOp s op) := by
  obtain ⟨hnd, hlt, hst⟩ := h
  cases op with
  | add songId title artist =>
    by_cases hb : (isBlank title || isBlank artist) = true
    · simp only [applyOp, addItem, hb, if_true]
      exact ⟨hnd, hlt, hst⟩
    · rw [Bool.not_eq_true] at hb
      simp only [applyOp, addItem, hb, Bool.false_eq_true, if_false]
      refine ⟨?_, ?_, ?_⟩
      · rw [List.map_append, List.nodup_append]
        refine ⟨hnd, by simp, ?_⟩
        intro i hi hmem
        simp at hmem
        obtain ⟨x, hx, hxe⟩ := List.mem_map.mp hi
        have := hlt x hx
        omega
      · intro x hx
        rcases List.mem_append.mp hx with hx | hx
        · have := hlt x hx
          show x.id < s.nextQueueItemId + 1
          omega
        · simp at hx
          rw [hx]
          exact Nat.lt_succ_self _
      · cases hq : s.queue.getLast? with
        | none =>
          rw [List.getLast?_eq_none_iff] at hq
          rw [hq]
          simp [sortedByPos]
        | some last =>
          refine sortedByPos_concat _ _ hst ?_
          intro x hx
          have := sortedByPos_le_getLast s.queue last hq hst x hx
          simp only [hq]
          omega
  | next =>
    cases hq : s.queue with
    | nil => simp only [applyOp, advance, hq]; exact ⟨hnd, hlt, hst⟩
    | cons a t =>
      simp only [applyOp, advance, hq]
      rw [hq] at hnd hlt
      refine ⟨?_, ?_, ?_⟩
      · show (List.map (fun x => x.id) (renumber t)).Nodup
        rw [renumber_map_id]
        simp at hnd
        exact hnd.2
      · intro y hy
        obtain ⟨x, hx, he⟩ := mem_map_id (renumberFrom_map_id 1 t) y hy
        rw [← he]
        exact hlt x (List.mem_cons_of_mem a hx)
      · exact sortedByPos_renumber t
  | setCur songId title artist =>
    by_cases hb : (isBlank title || isBlank artist) = true
    · simp only [applyOp, setCurrent, hb, if_true]
      exact ⟨hnd, hlt, hst⟩
    · rw [Bool.not_eq_true] at hb
      simp only [applyOp, setCurrent, hb, Bool.false_eq_true, if_false]
      exact ⟨hnd, hlt, hst⟩
  | clearCur =>
    exact ⟨hnd, hlt, hst⟩
  | remove id =>
    cases hf : s.queue.findIdx? (fun item => item.id == id) with
    | none => simp only [applyOp, removeItem, hf]; exact ⟨hnd, hlt, hst⟩
    | some i =>
      simp only [applyOp, removeItem, hf]
      have hsub : List.Sublist ((s.queue.eraseIdx i).map (·.id)) (s.queue.map (·.id)) :=
        (List.eraseIdx_sublist s.queue i).map _
      refine ⟨?_, ?_, ?_⟩
      · show (List.map (fun x => x.id) (renumber (s.queue.eraseIdx i))).Nodup
        rw [renumber_map_id]
        exact hnd.sublist hsub
      · intro y hy
        obtain ⟨x, hx, he⟩ := mem_map_id (renumberFrom_map_id 1 _) y hy
        rw [← he]
        exact hlt x ((List.eraseIdx_sublist s.queue i).mem hx)
      · exact sortedByPos_renumber _
  | reorderOp items =>
    cases items with
    | none => exact ⟨hnd, hlt, hst⟩
    | some entries =>
      simp only [applyOp, reorder]
      have hperm : List.Perm (((applyPositions entries s.queue).mergeSort posLE).map (·.id))
          ((applyPositions entries s.queue).map (·.id)) :=
        (List.mergeSort_perm _ posLE).map _
      refine ⟨?_, ?_, ?_⟩
      · rw [applyPositions_map_id] at hperm
        exact hperm.nodup_iff.mpr hnd
      · intro y hy
        rw [List.mem_mergeSort] at hy
        obtain ⟨x, hx, he⟩ := mem_map_id (applyPositions_map_id entries s.queue) y hy
        rw [← he]
        exact hlt x hx
      · exact sortedByPos_mergeSort _

theorem StoreInv_runOps (ops : List Op) :
    ∀ s : ServerState, StoreInv s → StoreInv (runOps s ops) := by
  induction ops with
  | nil => intro s h; exact h
  | cons op ops ih =>
    intro s h
    exact ih (applyOp s op) (StoreInv_applyOp s op h)

theorem StoreInv_reach (ops : List Op) : StoreInv (reachState ops) :=
  StoreInv_runOps ops initialState StoreInv_initial

/-! ### The `1..N` position invariant under Add / Remove / Advance -/

theorem posOK_concat (q : List QueueItem) (z : QueueItem) (h : posOK q)
    (hz : z.position = (q.length : Int) + 1) : posOK (q ++ [z]) := by
  unfold posOK posList at h ⊢
  rw [List.map_append, h, List.length_append]
  simp only [List.map_cons, List.map_nil, List.length_cons, List.length_nil]
  rw [hz]
  have he : q.length + (0 + 1) = q.length + 1 := by omega
  rw [he, posListFrom_concat]
  congr 1
  simp only [List.cons.injEq, and_true]
  push_cast
  ring

theorem posOK_applyOp (s : ServerState) (op : Op) (hop : op.structural = true)
    (h : posOK s.queue) : posOK (applyOp s op).queue := by
  cases op with
  | add songId title artist =>
    by_cases hb : (isBlank title || isBlank artist) = true
    · simp only [applyOp, addItem, hb, if_true]
      exact h
    · rw [Bool.not_eq_true] at hb
      simp only [applyOp, addItem, hb, Bool.false_eq_true, if_false]
      cases hq : s.queue.getLast? with
      | none =>
        rw [List.getLast?_eq_none_iff] at hq
        show posOK (s.queue ++ [_])
        rw [hq]
        rfl
      | some last =>
        have hlast : last.position = (s.queue.length : Int) := posOK_getLast s.queue last h hq
        refine posOK_concat s.queue _ h ?_
        simp only [hq]
        rw [hlast]
  | next =>
    cases hq : s.queue with
    | nil => simp only [applyOp, advance, hq]; rw [← hq]; exact h
    | cons a t =>
      simp only [applyOp, advance, hq]
      exact posOK_renumber t
  | remove id =>
    cases hf : s.queue.findIdx? (fun item => item.id == id) with
    | none => simp only [applyOp, removeItem, hf]; exact h
    | some i =>
      simp only [applyOp, removeItem, hf]
      exact posOK_renumber _
  | setCur songId title artist => simp [Op.structural] at hop
  | clearCur => simp [Op.structural] at hop
  | reorderOp items => simp [Op.structural] at hop

theorem posOK_runOps (ops : List Op) :
    ∀ s : ServerState, (∀ op ∈ ops, op.structural = true) → posOK s.queue →
      posOK (runOps s ops).queue := by
  induction ops with
  | nil => intro s _ h; exact h
  | cons op ops ih =>
    intro s hall h
    exact ih (applyOp s op) (fun o ho => hall o (List.mem_cons_of_mem op ho))
      (posOK_applyOp s op (hall op (List.mem_cons_self op ops)) h)

/-! ### Deleting by id: the spliced element is the unique match -/

theorem erase_first_filter (id : Nat) :
    ∀ q : List QueueItem, (q.map (·.id)).Nodup →
    ∀ i : Nat, q.findIdx? (fun item => item.id == id) = some i →
    q.eraseIdx i = q.filter (fun item => item.id != id) := by
  intro q
  induction q with
  | nil => intro _ i hfind; simp at hfind
  | cons x xs ih =>
    intro hnd i hfind
    simp only [List.findIdx?_cons] at hfind
    by_cases hp : (x.id == id) = true
    · rw [if_pos hp] at hfind
      obtain rfl : (0 : Nat) = i := by simpa using hfind
      have hxid : x.id = id := by simpa using hp
      have hx_not : x.id ∉ xs.map (·.id) := (List.nodup_cons.mp (by simpa using hnd)).1
      rw [List.eraseIdx_cons_zero, List.filter_cons_of_neg (by simp [hxid])]
      symm
      rw [List.filter_eq_self]
      intro a ha
      simp only [bne_iff_ne, ne_eq, decide_eq_true_eq]
      intro hcontra
      exact hx_not (by
        have : x.id = a.id := by rw [hxid, hcontra]
        rw [this]
        exact List.mem_map_of_mem _ ha)
    · rw [if_neg hp, List.findIdx?_start_succ] at hfind
      obtain ⟨j, hj, rfl⟩ := Option.map_eq_some'.mp hfind
      have hxne : (x.id != id) = true := by simpa using hp
      rw [List.eraseIdx_cons_succ, List.filter_cons, if_pos hxne]
      rw [ih (List.nodup_cons.mp (by simpa using hnd)).2 j hj]

/-! ### Stability of the reorder sort -/

theorem mergeSort_filter_position (l : List QueueItem) (p : Int) :
    (l.mergeSort posLE).filter (fun x => x.position == p) =
      l.filter (fun x => x.position == p) := by
  have hall : ∀ a ∈ l.filter (fun x => x.position == p), a.position = p := by
    intro a ha
    simpa using (List.mem_filter.mp ha).2
  have hc : (l.filter (fun x => x.position == p)).Pairwise (fun a b => posLE a b = true) := by
    apply List.pairwise_of_forall_mem_list
    intro a ha b hb
    simp only [posLE, decide_eq_true_eq]
    rw [hall a ha, hall b hb]
  have hsub : (l.filter (fun x => x.position == p)).Sublist (l.mergeSort posLE) :=
    List.sublist_mergeSort posLE_trans posLE_total hc (List.filter_sublist l)
  have hsub2 : (l.filter (fun x => x.position == p)).Sublist
      ((l.mergeSort posLE).filter (fun x => x.position == p)) := by
    have h2 := hsub.filter (fun x => x.position == p)
    rwa [List.filter_eq_self.mpr (fun a ha => (List.mem_filter.mp ha).2)] at h2
  have hlen : ((l.mergeSort posLE).filter (fun x => x.position == p)).length =
      (l.filter (fun x => x.position == p)).length :=
    ((List.mergeSort_perm l posLE).filter (fun x => x.position == p)).length_eq
  exact (hsub2.eq_of_length hlen.symm).symm

theorem applyPositions_getElem? (entries : List ReorderEntry) (q : List QueueItem) (i : Nat) :
    (applyPositions entries q)[i]? = (q[i]?).map
      (fun item => { item with position := (posLookup entries item.id).getD item.position }) := by
  unfold applyPositions
  exact List.getElem?_map _ q i

/-! ### The claims -/

/-- C1: Starting from the initial empty store (current absent, queue empty,
id counter 1), after every sequence of Add, Remove, and Advance operations
(successful or not; failed commands mutate nothing), the queue's positions
are exactly `1..N` (N = queue length) with no gaps or duplicates, and
position order coincides with array order. -/
theorem claim_positions_invariant (ops : List Op)
    (h : ∀ op ∈ ops, op.structural = true) :
    posOK (reachState ops).queue :=
  posOK_runOps ops initialState h rfl

theorem claim_positions_invariant_witness :
    (∀ op ∈ ([.add none (some "Song A") (some "Artist A"),
        .add none (some "Song B") (some "Artist B"), .next, .remove 2] : List Op),
      op.structural = true) ∧
    posOK (reachState [.add none (some "Song A") (some "Artist A"),
        .add none (some "Song B") (some "Artist B"), .next, .remove 2]).queue :=
  ⟨by decide, claim_positions_invariant _ (by decide)⟩

/-- C4: For the empty queue, Advance fails with EmptyQueueError and leaves
the entire store state unchanged (current song, queue contents, and id
counter all as before the call). -/
theorem claim_advance_empty (s : ServerState) (h : s.queue = []) :
    advance s = .error (.emptyQueueError "Queue is empty") ∧ applyOp s .next = s := by
  constructor
  · simp only [advance, h]
  · simp only [applyOp, advance, h]

theorem claim_advance_empty_witness :
    initialState.queue = [] ∧
    (advance initialState = .error (.emptyQueueError "Queue is empty") ∧
      applyOp initialState .next = initialState) :=
  ⟨rfl, claim_advance_empty initialState rfl⟩

/-- C7: In every snapshot produced by the Snapshot operation, the `next`
field is structurally equal to the first element of `queue`, and it is
absent if and only if the queue is empty; building the snapshot never
mutates store state (the read handler returns the state as it was). -/
theorem claim_snapshot_next (s : ServerState) :
    (getQueueSnapshot s).next = (getQueueSnapshot s).queue.head? ∧
    ((getQueueSnapshot s).next = none ↔ s.queue = []) ∧
    (getQueueSnapshot s).queue = s.queue ∧
    (getQueueSnapshot s).current = s.currentSong ∧
    handleGetQueue s = (getQueueSnapshot s, s) := by
  obtain ⟨c, q, n⟩ := s
  cases q <;> exact ⟨rfl, by simp [getQueueSnapshot], rfl, rfl, rfl⟩

/-- C9: ClearCurrent sets the current song to absent unconditionally, never
fails (it is a total state update), and is idempotent; for every prior
store state, SetCurrent followed by ClearCurrent yields current = absent,
and neither operation changes the queue. -/
theorem claim_clear_current (s : ServerState) (songId : Option Nat)
    (title artist : Option String) :
    (clearCurrent s).currentSong = none ∧
    clearCurrent (clearCurrent s) = clearCurrent s ∧
    (clearCurrent s).queue = s.queue ∧
    (clearCurrent s).nextQueueItemId = s.nextQueueItemId ∧
    applyOp s .clearCur = clearCurrent s ∧
    (applyOp (applyOp s (.setCur songId title artist)) .clearCur).currentSong = none ∧
    (applyOp s (.setCur songId title artist)).queue = s.queue := by
  refine ⟨rfl, rfl, rfl, rfl, rfl, rfl, ?_⟩
  by_cases hb : (isBlank title || isBlank artist) = true
  · simp only [applyOp, setCurrent, hb, if_true]
  · rw [Bool.not_eq_true] at hb
    simp only [applyOp, setCurrent, hb, Bool.false_eq_true, if_false]

/-- C2: For every queue whose positions are the canonical `1..N` (every
state reachable by structural operations), Advance removes exactly the
item at position 1 — the head, the unique position-1 item — sets the
current song to that item's songId, title, and artist (dropping its id and
position), decreases queue length by exactly 1, preserves the relative
order of the remaining items, and renumbers their positions to `1..N`. -/
theorem claim_advance_nonempty (s : ServerState) (x : QueueItem)
    (rest : List QueueItem) (hq : s.queue = x :: rest) (hpos : posOK s.queue) :
    x.position = 1 ∧ (∀ y ∈ rest, y.position ≠ 1) ∧
    ∃ cur s2, advance s = .ok (cur, s2) ∧
      cur = { songId := x.songId, title := x.title, artist := x.artist } ∧
      s2.currentSong = some cur ∧
      s2.queue.length + 1 = s.queue.length ∧
      s2.queue.map stripPos = rest.map stripPos ∧
      posOK s2.queue ∧
      s2.nextQueueItemId = s.nextQueueItemId := by
  have hmap := hpos
  unfold posOK at hmap
  rw [hq, List.map_cons, List.length_cons] at hmap
  have hunfold : posList (rest.length + 1) = (1 : Int) :: posListFrom 2 rest.length := rfl
  rw [hunfold] at hmap
  simp only [List.cons.injEq] at hmap
  have hadv : advance s = .ok
      ({ songId := x.songId, title := x.title, artist := x.artist },
        { s with
            currentSong := some { songId := x.songId, title := x.title, artist := x.artist }
            queue := renumber rest }) := by
    simp only [advance, hq]
  refine ⟨hmap.1, ?_, _, _, hadv, rfl, rfl, ?_, ?_, ?_, rfl⟩
  · intro y hy
    have hmem : y.position ∈ rest.map (·.position) := List.mem_map_of_mem _ hy
    rw [hmap.2] at hmem
    have := mem_posListFrom_lower 2 rest.length y.position hmem
    push_cast at this
    omega
  · show (renumber rest).length + 1 = s.queue.length
    rw [renumber_length, hq, List.length_cons]
  · show (renumber rest).map stripPos = rest.map stripPos
    exact renumber_map_stripPos rest
  · exact posOK_renumber rest

theorem claim_advance_nonempty_witness :
    stAB.queue = itemA :: [itemB] ∧ posOK stAB.queue ∧
    (itemA.position = 1 ∧ (∀ y ∈ [itemB], y.position ≠ 1) ∧
      ∃ cur s2, advance stAB = .ok (cur, s2) ∧
        cur = { songId := itemA.songId, title := itemA.title, artist := itemA.artist } ∧
        s2.currentSong = some cur ∧
        s2.queue.length + 1 = stAB.queue.length ∧
        s2.queue.map stripPos = [itemB].map stripPos ∧
        posOK s2.queue ∧
        s2.nextQueueItemId = stAB.nextQueueItemId) :=
  ⟨rfl, by decide, claim_advance_nonempty stAB itemA [itemB] rfl (by decide)⟩

/-- C5: On every reachable state, Add fails with ValidationError exactly
when title or artist is empty or missing, leaving the whole state
unchanged; on success it appends one new item carrying the next id from
the monotonic counter (an id no existing item carries) at position equal
to the current maximum position plus 1 (or 1 if the queue is empty), and
no existing item's id, position, or fields change. -/
theorem claim_add_spec (ops : List Op) (songId : Option Nat)
    (title artist : Option String) :
    ((isBlank title || isBlank artist) = true →
      addItem songId title artist (reachState ops) =
        .error (.validationError "title and artist are required") ∧
      applyOp (reachState ops) (.add songId title artist) = reachState ops) ∧
    ((isBlank title || isBlank artist) = false →
      ∃ item s2, addItem songId title artist (reachState ops) = .ok (item, s2) ∧
        applyOp (reachState ops) (.add songId title artist) = s2 ∧
        item.id = (reachState ops).nextQueueItemId ∧
        (∀ x ∈ (reachState ops).queue, x.id ≠ item.id) ∧
        s2.nextQueueItemId = (reachState ops).nextQueueItemId + 1 ∧
        s2.queue = (reachState ops).queue ++ [item] ∧
        s2.currentSong = (reachState ops).currentSong ∧
        item.songId = songId ∧ item.title = title.getD "" ∧ item.artist = artist.getD "" ∧
        ((reachState ops).queue = [] → item.position = 1) ∧
        ((reachState ops).queue ≠ [] →
          ∃ m, m ∈ (reachState ops).queue.map (·.position) ∧
            (∀ p ∈ (reachState ops).queue.map (·.position), p ≤ m) ∧
            item.position = m + 1)) := by
  constructor
  · intro hb
    constructor
    · simp only [addItem, hb, if_true]
    · simp only [applyOp, addItem, hb, if_true]
  · intro hb
    obtain ⟨hnd, hlt, hst⟩ := StoreInv_reach ops
    cases hq : (reachState ops).queue.getLast? with
    | none =>
      have hnil : (reachState ops).queue = [] := List.getLast?_eq_none_iff.mp hq
      refine ⟨{ id := (reachState ops).nextQueueItemId,
                songId := songId,
                title := title.getD "",
                artist := artist.getD "",
                position := 1 },
              { reachState ops with
                  queue := (reachState ops).queue ++
                    [{ id := (reachState ops).nextQueueItemId,
                       songId := songId,
                       title := title.getD "",
                       artist := artist.getD "",
                       position := 1 }]
                  nextQueueItemId := (reachState ops).nextQueueItemId + 1 },
              ?_, ?_, rfl, ?_, rfl, rfl, rfl, rfl, rfl, rfl, ?_, ?_⟩
      · simp only [addItem, hb, Bool.false_eq_true, if_false, hq]
      · simp only [applyOp, addItem, hb, Bool.false_eq_true, if_false, hq]
      · intro x hx
        have := hlt x hx
        show x.id ≠ (reachState ops).nextQueueItemId
        omega
      · intro _
        rfl
      · intro hne
        exact absurd hnil hne
    | some last =>
      have hlast_mem : last ∈ (reachState ops).queue := List.mem_of_getLast?_eq_some hq
      refine ⟨{ id := (reachState ops).nextQueueItemId,
                songId := songId,
                title := title.getD "",
                artist := artist.getD "",
                position := last.position + 1 },
              { reachState ops with
                  queue := (reachState ops).queue ++
                    [{ id := (reachState ops).nextQueueItemId,
                       songId := songId,
                       title := title.getD "",
                       artist := artist.getD "",
                       position := last.position + 1 }]
                  nextQueueItemId := (reachState ops).nextQueueItemId + 1 },
              ?_, ?_, rfl, ?_, rfl, rfl, rfl, rfl, rfl, rfl, ?_, ?_⟩
      · simp only [addItem, hb, Bool.false_eq_true, if_false, hq]
      · simp only [applyOp, addItem, hb, Bool.false_eq_true, if_false, hq]
      · intro x hx
        have := hlt x hx
        show x.id ≠ (reachState ops).nextQueueItemId
        omega
      · intro hnil
        rw [hnil] at hq
        simp at hq
      · intro _
        refine ⟨last.position, List.mem_map_of_mem _ hlast_mem, ?_, rfl⟩
        intro p hp
        obtain ⟨y, hy, hye⟩ := List.mem_map.mp hp
        rw [← hye]
        exact sortedByPos_le_getLast (reachState ops).queue last hq hst y hy

theorem claim_add_spec_witness :
    (isBlank (some "Song A") || isBlank (some "Artist A")) = false ∧
    (∃ item s2, addItem none (some "Song A") (some "Artist A") (reachState []) =
        .ok (item, s2) ∧
      applyOp (reachState []) (.add none (some "Song A") (some "Artist A")) = s2 ∧
      item.id = (reachState []).nextQueueItemId ∧
      (∀ x ∈ (reachState []).queue, x.id ≠ item.id) ∧
      s2.nextQueueItemId = (reachState []).nextQueueItemId + 1 ∧
      s2.queue = (reachState []).queue ++ [item] ∧
      s2.currentSong = (reachState []).currentSong ∧
      item.songId = none ∧ item.title = (some "Song A").getD "" ∧
      item.artist = (some "Artist A").getD "" ∧
      ((reachState []).queue = [] → item.position = 1) ∧
      ((reachState []).queue ≠ [] →
        ∃ m, m ∈ (reachState []).queue.map (·.position) ∧
          (∀ p ∈ (reachState []).queue.map (·.position), p ≤ m) ∧
          item.position = m + 1)) :=
  ⟨by decide, (claim_add_spec [] none (some "Song A") (some "Artist A")).2 (by decide)⟩

/-- C6: On every reachable state, Remove(id) fails with NotFoundError when
no queue item has the given id, leaving the queue unchanged; when an item
with that id exists, exactly that item (the unique one, ids being unique)
is removed and the remaining items' positions are renumbered to `1..N`
preserving their relative order. -/
theorem claim_remove_spec (ops : List Op) (id : Nat) :
    ((∀ x ∈ (reachState ops).queue, x.id ≠ id) →
      removeItem id (reachState ops) = .error (.notFoundError "Queue item not found") ∧
      applyOp (reachState ops) (.remove id) = reachState ops) ∧
    (∀ x ∈ (reachState ops).queue, x.id = id →
      ∃ s2, removeItem id (reachState ops) = .ok s2 ∧
        applyOp (reachState ops) (.remove id) = s2 ∧
        s2.currentSong = (reachState ops).currentSong ∧
        s2.nextQueueItemId = (reachState ops).nextQueueItemId ∧
        s2.queue.length + 1 = (reachState ops).queue.length ∧
        s2.queue.map stripPos =
          ((reachState ops).queue.filter (fun y => y.id != id)).map stripPos ∧
        posOK s2.queue) := by
  constructor
  · intro hnone
    have hfind : (reachState ops).queue.findIdx? (fun item => item.id == id) = none := by
      rw [List.findIdx?_eq_none_iff]
      intro x hx
      simpa using hnone x hx
    constructor
    · simp only [removeItem, hfind]
    · simp only [applyOp, removeItem, hfind]
  · intro x hx hxid
    obtain ⟨hnd, hlt, hst⟩ := StoreInv_reach ops
    have hfind : (reachState ops).queue.findIdx? (fun item => item.id == id) =
        some ((reachState ops).queue.findIdx (fun item => item.id == id)) :=
      List.findIdx?_eq_some_of_exists ⟨x, hx, by simpa using hxid⟩
    have herase := erase_first_filter id (reachState ops).queue hnd _ hfind
    have hilt : (reachState ops).queue.findIdx (fun item => item.id == id) <
        (reachState ops).queue.length :=
      List.findIdx_lt_length_of_exists ⟨x, hx, by simpa using hxid⟩
    refine ⟨{ reachState ops with
                queue := renumber ((reachState ops).queue.eraseIdx
                  ((reachState ops).queue.findIdx (fun item => item.id == id))) },
            ?_, ?_, rfl, rfl, ?_, ?_, ?_⟩
    · simp only [removeItem, hfind]
    · simp only [applyOp, removeItem, hfind]
    · show (renumber _).length + 1 = _
      rw [renumber_length, List.length_eraseIdx, if_pos hilt]
      omega
    · show (renumber _).map stripPos = _
      rw [renumber_map_stripPos, herase]
    · exact posOK_renumber _

theorem claim_remove_spec_witness :
    itemA ∈ (reachState opsAddA).queue ∧ itemA.id = 1 ∧
    (∃ s2, removeItem 1 (reachState opsAddA) = .ok s2 ∧
      applyOp (reachState opsAddA) (.remove 1) = s2 ∧
      s2.currentSong = (reachState opsAddA).currentSong ∧
      s2.nextQueueItemId = (reachState opsAddA).nextQueueItemId ∧
      s2.queue.length + 1 = (reachState opsAddA).queue.length ∧
      s2.queue.map stripPos =
        ((reachState opsAddA).queue.filter (fun y => y.id != 1)).map stripPos ∧
      posOK s2.queue) :=
  ⟨by decide, rfl, (claim_remove_spec opsAddA 1).2 itemA (by decide) rfl⟩

/-- C10: Every operation (including Reorder with gapped or duplicate
positions) leaves the queue array sorted in non-decreasing order of the
items' position fields; consequently a successful Add always assigns the
new item a position at least as large as every existing item's position —
it reads the last array element's position and adds 1 rather than
computing a maximum. -/
theorem claim_queue_sorted (ops : List Op) (songId : Option Nat)
    (title artist : Option String) (item : QueueItem) (s2 : ServerState)
    (h : addItem songId title artist (reachState ops) = .ok (item, s2)) :
    sortedByPos (reachState ops).queue ∧
    (∀ x ∈ (reachState ops).queue, x.position ≤ item.position) ∧
    ((reachState ops).queue ≠ [] →
      ∃ last, (reachState ops).queue.getLast? = some last ∧
        item.position = last.position + 1) ∧
    ((reachState ops).queue = [] → item.position = 1) := by
  obtain ⟨hnd, hlt, hst⟩ := StoreInv_reach ops
  by_cases hb : (isBlank title || isBlank artist) = true
  · rw [addItem, if_pos hb] at h
    exact absurd h (by simp)
  · rw [Bool.not_eq_true] at hb
    simp only [addItem, hb, Bool.false_eq_true, if_false, Except.ok.injEq,
      Prod.mk.injEq] at h
    obtain ⟨hitem, hs2⟩ := h
    cases hq : (reachState ops).queue.getLast? with
    | none =>
      have hnil : (reachState ops).queue = [] := List.getLast?_eq_none_iff.mp hq
      refine ⟨hst, ?_, ?_, ?_⟩
      · intro x hx
        rw [hnil] at hx
        simp at hx
      · intro hne
        exact absurd hnil hne
      · intro _
        rw [← hitem]
        simp only [hq]
    | some last =>
      refine ⟨hst, ?_, ?_, ?_⟩
      · intro x hx
        have hle := sortedByPos_le_getLast (reachState ops).queue last hq hst x hx
        rw [← hitem]
        simp only [hq]
        omega
      · intro _
        refine ⟨last, rfl, ?_⟩
        rw [← hitem]
        simp only [hq]
      · intro hnil
        rw [hnil] at hq
        simp at hq

theorem claim_queue_sorted_witness :
    sortedByPos (reachState opsAddA).queue ∧
    (∀ x ∈ (reachState opsAddA).queue, x.position ≤ itemB.position) ∧
    ((reachState opsAddA).queue ≠ [] →
      ∃ last, (reachState opsAddA).queue.getLast? = some last ∧
        itemB.position = last.position + 1) ∧
    ((reachState opsAddA).queue = [] → itemB.position = 1) :=
  claim_queue_sorted opsAddA none (some "Song B") (some "Artist B") itemB stAB rfl

/-- C3 counterexample: a reorder request whose single entry is not a
proper (id, position) pair — it has no id, i.e. `Number(it.id)` is `NaN` —
is accepted with success rather than rejected with ValidationError: the
handler only checks `Array.isArray(items)`. -/
theorem claim_reorder_counterexample :
    reorder (some [{ id := none, position := 7 }]) stA = .ok stA := by
  simp [reorder, applyPositions, posLookup, stA]

/-- C3 (amended): Reorder fails with ValidationError exactly when `items`
is not an array; an array whose entries are not proper (id, position)
pairs is accepted — an entry without a usable id matches no queue item and
has no effect.  For every queue item whose id appears in the mapping (the
last entry for an id wins, as with `Map.set`) its position is set to the
given value, items not mentioned retain their current position, and the
queue is then stable-sorted ascending by position with ties broken by
original relative order. -/
theorem claim_reorder_spec (s : ServerState) (entries : List ReorderEntry) :
    reorder none s = .error (.validationError "items must be an array") ∧
    applyOp s (.reorderOp none) = s ∧
    (∃ s2, reorder (some entries) s = .ok s2 ∧
      applyOp s (.reorderOp (some entries)) = s2 ∧
      s2.currentSong = s.currentSong ∧
      s2.nextQueueItemId = s.nextQueueItemId ∧
      List.Perm s2.queue (applyPositions entries s.queue) ∧
      sortedByPos s2.queue ∧
      (∀ p : Int, s2.queue.filter (fun x => x.position == p) =
        (applyPositions entries s.queue).filter (fun x => x.position == p)) ∧
      (∀ i : Nat, ∀ x : QueueItem, s.queue[i]? = some x →
        (posLookup entries x.id = none →
          (applyPositions entries s.queue)[i]? = some x) ∧
        (∀ p : Int, posLookup entries x.id = some p →
          (applyPositions entries s.queue)[i]? = some { x with position := p }))) := by
  refine ⟨rfl, rfl,
    ⟨{ s with queue := (applyPositions entries s.queue).mergeSort posLE },
      rfl, rfl, rfl, rfl, ?_, ?_, ?_, ?_⟩⟩
  · exact List.mergeSort_perm _ posLE
  · exact sortedByPos_mergeSort _
  · intro p
    exact mergeSort_filter_position _ p
  · intro i x hxi
    constructor
    · intro hnone
      rw [applyPositions_getElem?, hxi]
      simp [hnone]
    · intro p hp
      rw [applyPositions_getElem?, hxi]
      simp [hp]

theorem claim_reorder_spec_witness :
    reorder none stA = .error (.validationError "items must be an array") ∧
    applyOp stA (.reorderOp none) = stA ∧
    (∃ s2, reorder (some [{ id := some 1, position := 5 }]) stA = .ok s2 ∧
      applyOp stA (.reorderOp (some [{ id := some 1, position := 5 }])) = s2 ∧
      s2.currentSong = stA.currentSong ∧
      s2.nextQueueItemId = stA.nextQueueItemId ∧
      List.Perm s2.queue (applyPositions [{ id := some 1, position := 5 }] stA.queue) ∧
      sortedByPos s2.queue ∧
      (∀ p : Int, s2.queue.filter (fun x => x.position == p) =
        (applyPositions [{ id := some 1, position := 5 }] stA.queue).filter
          (fun x => x.position == p)) ∧
      (∀ i : Nat, ∀ x : QueueItem, stA.queue[i]? = some x ∧ True →
        (posLookup [{ id := some 1, position := 5 }] x.id = none →
          (applyPositions [{ id := some 1, position := 5 }] stA.queue)[i]? = some x) ∧
        (∀ p : Int, posLookup [{ id := some 1, position := 5 }] x.id = some p →
          (applyPositions [{ id := some 1, position := 5 }] stA.queue)[i]? =
            some { x with position := p }))) :=
  ⟨rfl, rfl, by
    obtain ⟨-, -, s2, h1, h2, h3, h4, h5, h6, h7, h8⟩ :=
      claim_reorder_spec stA [{ id := some 1, position := 5 }]
    exact ⟨s2, h1, h2, h3, h4, h5, h6, h7, fun i x hix => h8 i x hix.1⟩⟩

/-- C8 counterexample: after a publish in which the write to observer 1
fails (and is logged as an error), observer 1 is still registered in the
observer set — `broadcastQueue` itself never removes a subscriber; only
the separate connection-close handler does. -/
theorem claim_broadcast_counterexample :
    (broadcastQueue [{ cid := 1, alive := false, received := [] },
        { cid := 2, alive := true, received := [] }] initialState).clients =
      [{ cid := 1, alive := false, received := [] },
       { cid := 2, alive := true, received := [getQueueSnapshot initialState] }] ∧
    (broadcastQueue [{ cid := 1, alive := false, received := [] },
        { cid := 2, alive := true, received := [] }] initialState).loggedErrors = [1] := by
  exact ⟨rfl, rfl⟩

/-- C8 (amended): Publish computes one snapshot and sends that same value
to every registered observer; a send failure to any one observer is
isolated — it is logged and does not prevent delivery to the remaining
observers or propagate to the caller — but the failing observer is NOT
removed by the publish itself: the observer set is left unchanged, and an
observer is deregistered only by its connection-close handler. -/
theorem claim_broadcast_spec (clients : List SseClient) (s : ServerState) :
    (broadcastQueue clients s).clients.length = clients.length ∧
    (∀ i : Nat, ∀ c : SseClient, clients[i]? = some c →
      (broadcastQueue clients s).clients[i]? =
        some (if c.alive = true
          then { c with received := c.received ++ [getQueueSnapshot s] }
          else c)) ∧
    (∀ i : Nat, ∀ c : SseClient, clients[i]? = some c →
      ((broadcastQueue clients s).clients[i]?).map (·.cid) = some c.cid) ∧
    (broadcastQueue clients s).loggedErrors =
      (clients.filter (fun c => !c.alive)).map (·.cid) ∧
    (∀ cid : Nat, ∀ c ∈ handleClose clients cid, c.cid ≠ cid) := by
  have hget : ∀ i : Nat, ∀ c : SseClient, clients[i]? = some c →
      (broadcastQueue clients s).clients[i]? =
        some (if c.alive = true
          then { c with received := c.received ++ [getQueueSnapshot s] }
          else c) := by
    intro i c hic
    show (clients.map _)[i]? = _
    rw [List.getElem?_map, hic]
    cases hc : c.alive with
    | true => simp [sseWrite, hc]
    | false => simp [sseWrite, hc]
  refine ⟨List.length_map clients _, hget, ?_, rfl, ?_⟩
  · intro i c hic
    rw [hget i c hic]
    cases hc : c.alive with
    | true => simp [hc]
    | false => simp [hc]
  · intro cid c hc
    have := (List.mem_filter.mp hc).2
    simpa using this

theorem claim_broadcast_spec_witness :
    (broadcastQueue [{ cid := 1, alive := false, received := [] },
        { cid := 2, alive := true, received := [] }] initialState).clients.length =
      ([{ cid := 1, alive := false, received := [] },
        { cid := 2, alive := true, received := [] }] : List SseClient).length ∧
    (∀ i : Nat, ∀ c : SseClient,
      ([{ cid := 1, alive := false, received := [] },
        { cid := 2, alive := true, received := [] }] : List SseClient)[i]? = some c →
      (broadcastQueue [{ cid := 1, alive := false, received := [] },
          { cid := 2, alive := true, received := [] }] initialState).clients[i]? =
        some (if c.alive = true
          then { c with received := c.received ++ [getQueueSnapshot initialState] }
          else c)) ∧
    (∀ i : Nat, ∀ c : SseClient,
      ([{ cid := 1, alive := false, received := [] },
        { cid := 2, alive := true, received := [] }] : List SseClient)[i]? = some c →
      ((broadcastQueue [{ cid := 1, alive := false, received := [] },
          { cid := 2, alive := true, received := [] }] initialState).clients[i]?).map
        (·.cid) = some c.cid) ∧
    (broadcastQueue [{ cid := 1, alive := false, received := [] },
        { cid := 2, alive := true, received := [] }] initialState).loggedErrors =
      (([{ cid := 1, alive := false, received := [] },
         { cid := 2, alive := true, received := [] }] : List SseClient).filter
        (fun c => !c.alive)).map (·.cid) ∧
    (∀ cid : Nat, ∀ c ∈ handleClose [{ cid := 1, alive := false, received := [] },
        { cid := 2, alive := true, received := [] }] cid, c.cid ≠ cid) :=
  claim_broadcast_spec
    [{ cid := 1, alive := false, received := [] },
     { cid := 2, alive := true, received := [] }] initialState
